import Mathlib

/-! Shallow embedding of `core/store/src/trie/trie_storage.rs`: the trie
storage backends (layered caching, recording, partial replay, prefetching),
the bounded LRU shard cache, the pending-fetch registry and the read
accounting.  State is passed explicitly: the `Cell`, `RefCell` and
`Arc<Mutex<..>>` fields of the Rust structures become plain fields of a state
record, and each `retrieve_raw_bytes` returns its result together with the
updated state. -/

/-- Abstract content hash (`CryptoHash`).  The backends use it only as a key
with decidable equality; the 32-byte encoding matters only for the persistent
key composition, which is modelled separately on byte lists below. -/
abbrev CryptoHash := Nat

/-- A byte payload (`Vec<u8>` / `Arc<[u8]>`), as a list of bytes. -/
abbrev Bytes := List Nat

/-- `StorageError`, as used by `trie_storage.rs`. -/
inductive StorageError where
  | StorageInternalError
  | StorageInconsistentState (msg : String)
  | TrieNodeMissing
deriving DecidableEq

/-- Lookup in the association-list model of `HashMap`. -/
def mapFind {α : Type} (m : List (CryptoHash × α)) (k : CryptoHash) : Option α :=
  (m.find? (fun p => p.1 == k)).map Prod.snd

/-- Insert (replacing any previous binding) in the association-list model of
`HashMap`. -/
def mapInsert {α : Type} (m : List (CryptoHash × α)) (k : CryptoHash) (v : α) :
    List (CryptoHash × α) :=
  (k, v) :: m.filter (fun p => p.1 != k)

/-- Removal in the association-list model of `HashMap`. -/
def mapRemove {α : Type} (m : List (CryptoHash × α)) (k : CryptoHash) :
    List (CryptoHash × α) :=
  m.filter (fun p => p.1 != k)

/-- Model of the external `lru::LruCache`: entries kept most recently used
first, with a fixed entry-count capacity. -/
structure LruCache where
  capacity : Nat
  entries : List (CryptoHash × Bytes)
deriving DecidableEq

/-- `LruCache::get`: on a hit the entry moves to the front (recency refresh). -/
def LruCache.get (c : LruCache) (k : CryptoHash) : Option Bytes × LruCache :=
  match c.entries.find? (fun p => p.1 == k) with
  | some e => (some e.2, ⟨c.capacity, (k, e.2) :: c.entries.filter (fun p => p.1 != k)⟩)
  | none => (none, c)

/-- `LruCache::put`: replace or insert at the front; when a new key overflows
the capacity, the least recently used entry (the last one) is dropped. -/
def LruCache.put (c : LruCache) (k : CryptoHash) (v : Bytes) : LruCache :=
  ⟨c.capacity, ((k, v) :: c.entries.filter (fun p => p.1 != k)).take c.capacity⟩

/-- `LruCache::pop`: remove the entry for a key. -/
def LruCache.pop (c : LruCache) (k : CryptoHash) : LruCache :=
  ⟨c.capacity, c.entries.filter (fun p => p.1 != k)⟩

/-- `TrieCache` wraps the LRU cache (the `Arc<Mutex<..>>` wrapper dissolves in
the sequential model). -/
abbrev TrieCache := LruCache

/-- `TRIE_LIMIT_CACHED_VALUE_SIZE`: values of this size and above are never
put in the shard cache. -/
def TRIE_LIMIT_CACHED_VALUE_SIZE : Nat := 1000

/-- Modelled from the spec: the raw persistent-store value decoded by
`decode_value_with_rc` (crate `db::refcount`, outside the given sources).
Per the spec a stored raw value "may embed an optional reference count
alongside the payload (the storage layer must decode and strip it)", so a raw
value is modelled as the optional payload together with its reference count. -/
structure RawValue where
  payload : Option Bytes
  rc : Int
deriving DecidableEq

/-- Modelled from the spec: `decode_value_with_rc` yields the optional payload
and the reference count carried by a raw stored value. -/
def decode_value_with_rc (v : RawValue) : Option Bytes × Int :=
  (v.payload, v.rc)

/-- One step of `TrieCache::update_cache` for a single `(hash, opt_value_rc)`
pair of the batch (the body of the `for` loop, lines 41 to 53). -/
def TrieCache.update_one (guard : TrieCache) (op : CryptoHash × Option RawValue) :
    TrieCache :=
  match op with
  | (hash, some value_rc) =>
    match decode_value_with_rc value_rc with
    | (some value, _) =>
      if value.length < TRIE_LIMIT_CACHED_VALUE_SIZE then guard.put hash value else guard
    | (none, _) => guard.pop hash
  | (hash, none) => guard.pop hash

/-- `TrieCache::update_cache`: fold the per-pair step over the batch. -/
def TrieCache.update_cache (c : TrieCache) (ops : List (CryptoHash × Option RawValue)) :
    TrieCache :=
  ops.foldl TrieCache.update_one c

/-- Modelled from the spec: `TrieCacheMode` (near-primitives, outside the
given sources) has the two modes of spec section 4.3: normal
(`CachingShard`) and cache-all-reads-for-this-operation (`CachingChunk`). -/
inductive TrieCacheMode where
  | CachingShard
  | CachingChunk
deriving DecidableEq

/-- Outcome of one `Store::get(DBCol::State, key)` call on the external
persistent store: an IO failure, an absent key, or a value. -/
inductive StoreResult where
  | ioError
  | absent
  | value (v : Bytes)

/-- The persistent store, abstracted as a function from content hash to the
result of `store.get` on the composed key: for a fixed shard the 40-byte key
and the hash determine each other (see the key round-trip theorem below). -/
def Store := CryptoHash → StoreResult

/-- `PrefetchSlot`: a pending-fetch registry slot. -/
inductive PrefetchSlot where
  | Pending
  | Done (v : Bytes)
deriving DecidableEq

/-- Sequential outcome of `wait_for_prefetched`: a `Done` slot is consumed, a
vacant key returns nothing, and a `Pending` slot would busy-poll until some
other thread completes it — an unresolvable block in the one-thread model. -/
inductive PrefetchWait where
  | got (v : Bytes)
  | vacant
  | blockedPending
deriving DecidableEq

/-- `wait_for_prefetched` over the registry (together with `check_prefetched`):
a `Done` slot is removed and returned, a vacant key yields nothing, and a
`Pending` slot blocks. -/
def wait_for_prefetched (m : List (CryptoHash × PrefetchSlot)) (k : CryptoHash) :
    PrefetchWait × List (CryptoHash × PrefetchSlot) :=
  match mapFind m k with
  | some (PrefetchSlot.Done v) => (PrefetchWait.got v, mapRemove m k)
  | some PrefetchSlot.Pending => (PrefetchWait.blockedPending, m)
  | none => (PrefetchWait.vacant, m)

/-- `TrieNodesCount` (near-primitives): the read-accounting snapshot. -/
structure TrieNodesCount where
  db_reads : Nat
  mem_reads : Nat
deriving DecidableEq

/-- `TrieCachingStorage` state.  `store_reads` is ghost instrumentation that
counts the `self.store.get` calls issued, so that "never queries the
persistent store" is expressible. -/
structure TrieCachingStorage where
  store : Store
  shard_cache : TrieCache
  chunk_cache : List (CryptoHash × Bytes)
  cache_mode : TrieCacheMode
  prefetching : List (CryptoHash × PrefetchSlot)
  db_read_nodes : Nat
  mem_read_nodes : Nat
  store_reads : Nat

/-- Result of `TrieCachingStorage::retrieve_raw_bytes` in the sequential
model: a payload, a `StorageError`, or a block on a `Pending` prefetch slot
that only another thread could resolve. -/
inductive RetrieveResult where
  | ok (v : Bytes)
  | err (e : StorageError)
  | blockedOnPrefetch
deriving DecidableEq

/-- `TrieCachingStorage::inc_db_read_nodes`. -/
def TrieCachingStorage.inc_db_read_nodes (s : TrieCachingStorage) : TrieCachingStorage :=
  { s with db_read_nodes := s.db_read_nodes + 1 }

/-- `TrieCachingStorage::inc_mem_read_nodes`. -/
def TrieCachingStorage.inc_mem_read_nodes (s : TrieCachingStorage) : TrieCachingStorage :=
  { s with mem_read_nodes := s.mem_read_nodes + 1 }

/-- The common tail of `TrieCachingStorage::retrieve_raw_bytes` after a
chunk-cache miss (lines 348 to 353): count a db read and, in `CachingChunk`
mode, insert the value into the chunk cache. -/
def TrieCachingStorage.finishRead (s : TrieCachingStorage) (hash : CryptoHash)
    (val : Bytes) : RetrieveResult × TrieCachingStorage :=
  match s.cache_mode with
  | TrieCacheMode.CachingChunk =>
    (RetrieveResult.ok val,
      { s with db_read_nodes := s.db_read_nodes + 1,
               chunk_cache := mapInsert s.chunk_cache hash val })
  | TrieCacheMode.CachingShard =>
    (RetrieveResult.ok val, { s with db_read_nodes := s.db_read_nodes + 1 })

/-- Lines 323 to 332 of `retrieve_raw_bytes`: admit a fetched value into the
shard cache when its size is under the limit. -/
def TrieCachingStorage.admitToShardCache (s : TrieCachingStorage) (hash : CryptoHash)
    (val : Bytes) : TrieCachingStorage :=
  if val.length < TRIE_LIMIT_CACHED_VALUE_SIZE then
    { s with shard_cache := s.shard_cache.put hash val }
  else s

/-- `TrieCachingStorage::retrieve_raw_bytes` (lines 287 to 354): chunk cache,
then shard cache, then the pending-fetch registry, then the persistent store;
fetched values are admitted to the shard cache under the size limit, and the
common accounting tail runs on every path that produces a value. -/
def TrieCachingStorage.retrieve_raw_bytes (s : TrieCachingStorage) (hash : CryptoHash) :
    RetrieveResult × TrieCachingStorage :=
  match mapFind s.chunk_cache hash with
  | some val => (RetrieveResult.ok val, s.inc_mem_read_nodes)
  | none =>
    match (s.shard_cache.get hash).1 with
    | some val =>
      TrieCachingStorage.finishRead { s with shard_cache := (s.shard_cache.get hash).2 }
        hash val
    | none =>
      match (wait_for_prefetched s.prefetching hash).1 with
      | PrefetchWait.blockedPending =>
        (RetrieveResult.blockedOnPrefetch,
          { s with shard_cache := (s.shard_cache.get hash).2 })
      | PrefetchWait.got val =>
        TrieCachingStorage.finishRead
          (TrieCachingStorage.admitToShardCache
            { s with shard_cache := (s.shard_cache.get hash).2,
                     prefetching := (wait_for_prefetched s.prefetching hash).2 }
            hash val)
          hash val
      | PrefetchWait.vacant =>
        match s.store hash with
        | StoreResult.ioError =>
          (RetrieveResult.err StorageError.StorageInternalError,
            { s with shard_cache := (s.shard_cache.get hash).2,
                     store_reads := s.store_reads + 1 })
        | StoreResult.absent =>
          (RetrieveResult.err (StorageError.StorageInconsistentState "Trie node missing"),
            { s with shard_cache := (s.shard_cache.get hash).2,
                     store_reads := s.store_reads + 1 })
        | StoreResult.value val =>
          TrieCachingStorage.finishRead
            (TrieCachingStorage.admitToShardCache
              { s with shard_cache := (s.shard_cache.get hash).2,
                       store_reads := s.store_reads + 1 }
              hash val)
            hash val

/-- `TrieCachingStorage::get_trie_nodes_count`. -/
def TrieCachingStorage.get_trie_nodes_count (s : TrieCachingStorage) :
    Option TrieNodesCount :=
  some ⟨s.db_read_nodes, s.mem_read_nodes⟩

/-- `TrieRecordingStorage` state, with the same ghost `store_reads` counter of
issued persistent-store queries. -/
structure TrieRecordingStorage where
  store : Store
  recorded : List (CryptoHash × Bytes)
  store_reads : Nat

/-- `TrieRecordingStorage::retrieve_raw_bytes` (lines 94 to 109): serve from
the recorded set when possible; otherwise fetch from the persistent store,
record the value, and fail with `StorageInconsistentState` when absent. -/
def TrieRecordingStorage.retrieve_raw_bytes (s : TrieRecordingStorage)
    (hash : CryptoHash) : Except StorageError Bytes × TrieRecordingStorage :=
  match mapFind s.recorded hash with
  | some val => (Except.ok val, s)
  | none =>
    match s.store hash with
    | StoreResult.ioError =>
      (Except.error StorageError.StorageInternalError,
        { s with store_reads := s.store_reads + 1 })
    | StoreResult.absent =>
      (Except.error (StorageError.StorageInconsistentState "Trie node missing"),
        { s with store_reads := s.store_reads + 1 })
    | StoreResult.value val =>
      (Except.ok val,
        { s with recorded := mapInsert s.recorded hash val,
                 store_reads := s.store_reads + 1 })

/-- `TrieRecordingStorage::get_trie_nodes_count` is `unimplemented!()`: the
call aborts, modelled as `none`. -/
def TrieRecordingStorage.get_trie_nodes_count (_ : TrieRecordingStorage) :
    Option TrieNodesCount :=
  none

/-- `TrieMemoryPartialStorage` state: the fixed recorded mapping and the
visited set. -/
structure TrieMemoryPartialStorage where
  recorded_storage : List (CryptoHash × Bytes)
  visited_nodes : List CryptoHash

/-- `HashSet::insert` on the visited set, modelled as a duplicate-free list. -/
def setInsert (s : List CryptoHash) (k : CryptoHash) : List CryptoHash :=
  if k ∈ s then s else k :: s

/-- `TrieMemoryPartialStorage::retrieve_raw_bytes` (lines 128 to 137): look
the hash up in the fixed mapping; on a hit record it as visited and return the
payload; on a miss fail with `TrieNodeMissing`. -/
def TrieMemoryPartialStorage.retrieve_raw_bytes (s : TrieMemoryPartialStorage)
    (hash : CryptoHash) : Except StorageError Bytes × TrieMemoryPartialStorage :=
  match mapFind s.recorded_storage hash with
  | some val =>
    (Except.ok val, { s with visited_nodes := setInsert s.visited_nodes hash })
  | none => (Except.error StorageError.TrieNodeMissing, s)

/-- `TrieMemoryPartialStorage::get_trie_nodes_count` is `unimplemented!()`:
the call aborts, modelled as `none`. -/
def TrieMemoryPartialStorage.get_trie_nodes_count (_ : TrieMemoryPartialStorage) :
    Option TrieNodesCount :=
  none

/-- Run a sequence of `retrieve_raw_bytes` calls on the partial backend,
keeping the evolving state. -/
def TrieMemoryPartialStorage.runRetrievals (s : TrieMemoryPartialStorage)
    (hs : List CryptoHash) : TrieMemoryPartialStorage :=
  hs.foldl (fun st h => (st.retrieve_raw_bytes h).2) s

/-- `TriePrefetchingStorage` state (the `Store`, the shared shard cache, and
the shared pending-fetch registry). -/
structure TriePrefetchingStorage where
  store : Store
  shard_cache : TrieCache
  prefetching : List (CryptoHash × PrefetchSlot)

/-- `TriePrefetchingStorage::get_trie_nodes_count` is `unimplemented!()`: the
call aborts, modelled as `none`. -/
def TriePrefetchingStorage.get_trie_nodes_count (_ : TriePrefetchingStorage) :
    Option TrieNodesCount :=
  none

/-- The completion step of `TriePrefetchingStorage::retrieve_raw_bytes`
(lines 437 to 446): write `Done(val)` into the pending-fetch registry after a
store fetch.  The previous slot must have been `Pending`; otherwise the code
aborts with the message "Slot should be pending", modelled as `none`. -/
def completePrefetch (m : List (CryptoHash × PrefetchSlot)) (hash : CryptoHash)
    (val : Bytes) : Option (List (CryptoHash × PrefetchSlot)) :=
  match mapFind m hash with
  | some PrefetchSlot.Pending => some (mapInsert m hash (PrefetchSlot.Done val))
  | _ => none

/-- `TrieCachingStorage::get_key_from_shard_uid_and_hash` (lines 227 to 235):
the 8 bytes of the shard identifier followed by the 32 bytes of the hash.
Modelled from the spec for the byte conversions: `ShardUId::to_bytes` and the
`try_from` conversions (near-primitives, outside the given sources) are taken
as the fixed-width byte strings themselves. -/
def get_key_from_shard_uid_and_hash (shard_uid : Bytes) (hash : Bytes) : Bytes :=
  shard_uid ++ hash

/-- `TrieCachingStorage::get_shard_uid_and_hash_from_key` (lines 216 to 225):
reject any key whose length is not 40, else split it into the 8-byte shard
identifier and the 32-byte hash. -/
def get_shard_uid_and_hash_from_key (key : Bytes) : Except String (Bytes × Bytes) :=
  if key.length = 40 then Except.ok (key.take 8, key.drop 8)
  else Except.error "Key is always shard_uid + hash"

/-- Every payload held in the cache is under the admission threshold. -/
def LruCache.allUnder (c : LruCache) : Prop :=
  ∀ p ∈ c.entries, p.2.length < TRIE_LIMIT_CACHED_VALUE_SIZE

/-- A list filtered to keys different from `k` has no entry found for `k`. -/
theorem find_filter_ne_eq_none {α : Type} (l : List (CryptoHash × α)) (k : CryptoHash) :
    (l.filter (fun p => p.1 != k)).find? (fun p => p.1 == k) = none := by
  induction l with
  | nil => rfl
  | cons a t ih =>
    by_cases hak : a.1 = k
    · simp [List.filter_cons, hak, ih]
    · simp [List.filter_cons, hak, List.find?, ih]

/-- Lookup after insert at the same key. -/
theorem mapFind_mapInsert_self {α : Type} (m : List (CryptoHash × α)) (k : CryptoHash)
    (v : α) : mapFind (mapInsert m k v) k = some v := by
  simp [mapFind, mapInsert, List.find?]

/-- Membership in `setInsert` comes from the new key or the old set. -/
theorem mem_setInsert {s : List CryptoHash} {k h : CryptoHash}
    (hm : h ∈ setInsert s k) : h = k ∨ h ∈ s := by
  unfold setInsert at hm
  by_cases hk : k ∈ s
  · simp [hk] at hm
    exact Or.inr hm
  · simp [hk] at hm
    exact hm

/-- The inserted key is in `setInsert`. -/
theorem self_mem_setInsert (s : List CryptoHash) (k : CryptoHash) :
    k ∈ setInsert s k := by
  unfold setInsert
  by_cases hk : k ∈ s <;> simp [hk]

/-- C3: on the partial (replay) backend, a hash present in the fixed recorded
mapping is served: the payload is returned and the hash inserted into the
visited set; an absent hash fails with exactly `TrieNodeMissing` and leaves
the state unchanged — the model returns this typed error (no abort exists on
this path) and never a payload. -/
theorem C3_partial_retrieve (s : TrieMemoryPartialStorage) (hash : CryptoHash)
    (val : Bytes) :
    (mapFind s.recorded_storage hash = some val →
      (s.retrieve_raw_bytes hash).1 = Except.ok val ∧
      hash ∈ (s.retrieve_raw_bytes hash).2.visited_nodes ∧
      (s.retrieve_raw_bytes hash).2.recorded_storage = s.recorded_storage) ∧
    (mapFind s.recorded_storage hash = none →
      (s.retrieve_raw_bytes hash).1 = Except.error StorageError.TrieNodeMissing ∧
      (s.retrieve_raw_bytes hash).2 = s) := by
  constructor
  · intro hfind
    unfold TrieMemoryPartialStorage.retrieve_raw_bytes
    rw [hfind]
    exact ⟨rfl, self_mem_setInsert _ _, rfl⟩
  · intro hfind
    unfold TrieMemoryPartialStorage.retrieve_raw_bytes
    rw [hfind]
    exact ⟨rfl, rfl⟩

/-- C4: on the recording backend, a hash in the recorded set is served from it
with the state (so also the ghost store-query counter) unchanged; on a miss
the store is queried: a present value is recorded and returned, an absent one
fails with `StorageInconsistentState`. -/
theorem C4_recording_retrieve (s : TrieRecordingStorage) (hash : CryptoHash)
    (val : Bytes) :
    (mapFind s.recorded hash = some val →
      (s.retrieve_raw_bytes hash).1 = Except.ok val ∧
      (s.retrieve_raw_bytes hash).2 = s) ∧
    (mapFind s.recorded hash = none → s.store hash = StoreResult.value val →
      (s.retrieve_raw_bytes hash).1 = Except.ok val ∧
      (s.retrieve_raw_bytes hash).2.recorded = mapInsert s.recorded hash val ∧
      (s.retrieve_raw_bytes hash).2.store_reads = s.store_reads + 1) ∧
    (mapFind s.recorded hash = none → s.store hash = StoreResult.absent →
      (s.retrieve_raw_bytes hash).1 =
        Except.error (StorageError.StorageInconsistentState "Trie node missing")) := by
  refine ⟨?_, ?_, ?_⟩
  · intro hfind
    unfold TrieRecordingStorage.retrieve_raw_bytes
    rw [hfind]
    exact ⟨rfl, rfl⟩
  · intro hfind hstore
    unfold TrieRecordingStorage.retrieve_raw_bytes
    rw [hfind, hstore]
    exact ⟨rfl, rfl, rfl⟩
  · intro hfind hstore
    unfold TrieRecordingStorage.retrieve_raw_bytes
    rw [hfind, hstore]

/-- C8: the pending-fetch completion step aborts (modelled as `none`) exactly
when the previous slot for the hash was not `Pending`; when it was `Pending`
the step succeeds and the slot now holds `Done(val)`. -/
theorem C8_complete_prefetch (m : List (CryptoHash × PrefetchSlot)) (hash : CryptoHash)
    (val : Bytes) :
    (mapFind m hash = some PrefetchSlot.Pending →
      completePrefetch m hash val = some (mapInsert m hash (PrefetchSlot.Done val)) ∧
      mapFind (mapInsert m hash (PrefetchSlot.Done val)) hash =
        some (PrefetchSlot.Done val)) ∧
    (mapFind m hash ≠ some PrefetchSlot.Pending →
      completePrefetch m hash val = none) := by
  constructor
  · intro hp
    constructor
    · unfold completePrefetch
      rw [hp]
    · exact mapFind_mapInsert_self m hash (PrefetchSlot.Done val)
  · intro hp
    unfold completePrefetch
    rcases hm : mapFind m hash with _ | slot
    · rfl
    · cases slot
      · exact absurd hm hp
      · rfl

/-- C7: composing the 40-byte store key from an 8-byte shard identifier and a
32-byte content hash and decoding it gives back exactly the pair, and any key
whose length is not 40 decodes to an error. -/
theorem C7_key_roundtrip (shard_uid hash key : Bytes) :
    (shard_uid.length = 8 → hash.length = 32 →
      get_shard_uid_and_hash_from_key
        (get_key_from_shard_uid_and_hash shard_uid hash) =
        Except.ok (shard_uid, hash)) ∧
    (key.length ≠ 40 →
      get_shard_uid_and_hash_from_key key =
        Except.error "Key is always shard_uid + hash") := by
  constructor
  · intro h8 h32
    unfold get_key_from_shard_uid_and_hash get_shard_uid_and_hash_from_key
    rw [if_pos (by simp [h8, h32])]
    rw [← h8, List.take_left, List.drop_left]
  · intro h40
    unfold get_shard_uid_and_hash_from_key
    rw [if_neg h40]

/-- C10: the recording, partial and prefetching backends abort on
`get_trie_nodes_count` (`unimplemented!()`, modelled as `none`); only the
layered caching backend returns a count, the pair of its db-read and mem-read
counters. -/
theorem C10_nodes_count (r : TrieRecordingStorage) (p : TrieMemoryPartialStorage)
    (f : TriePrefetchingStorage) (s : TrieCachingStorage) :
    r.get_trie_nodes_count = none ∧
    p.get_trie_nodes_count = none ∧
    f.get_trie_nodes_count = none ∧
    s.get_trie_nodes_count = some ⟨s.db_read_nodes, s.mem_read_nodes⟩ :=
  ⟨rfl, rfl, rfl, rfl⟩

/-- Invariant step for the replay backend: a run of retrievals keeps the fixed
mapping intact and keeps every visited hash inside its key set. -/
theorem runRetrievals_invariant (recorded : List (CryptoHash × Bytes))
    (hs : List CryptoHash) (visited : List CryptoHash)
    (hinv : ∀ h ∈ visited, (mapFind recorded h).isSome) :
    (TrieMemoryPartialStorage.runRetrievals ⟨recorded, visited⟩ hs).recorded_storage =
      recorded ∧
    ∀ h ∈ (TrieMemoryPartialStorage.runRetrievals ⟨recorded, visited⟩ hs).visited_nodes,
      (mapFind recorded h).isSome := by
  induction hs generalizing visited with
  | nil => exact ⟨rfl, hinv⟩
  | cons a t ih =>
    have hstep :
        TrieMemoryPartialStorage.runRetrievals ⟨recorded, visited⟩ (a :: t) =
          TrieMemoryPartialStorage.runRetrievals
            ((TrieMemoryPartialStorage.retrieve_raw_bytes ⟨recorded, visited⟩ a).2) t := rfl
    rw [hstep]
    rcases hfind : mapFind recorded a with _ | v
    · have hstate :
          (TrieMemoryPartialStorage.retrieve_raw_bytes ⟨recorded, visited⟩ a).2 =
            ⟨recorded, visited⟩ := by
        unfold TrieMemoryPartialStorage.retrieve_raw_bytes
        rw [show mapFind (⟨recorded, visited⟩ : TrieMemoryPartialStorage).recorded_storage a
              = none from hfind]
      rw [hstate]
      exact ih visited hinv
    · have hstate :
          (TrieMemoryPartialStorage.retrieve_raw_bytes ⟨recorded, visited⟩ a).2 =
            ⟨recorded, setInsert visited a⟩ := by
        unfold TrieMemoryPartialStorage.retrieve_raw_bytes
        rw [show mapFind (⟨recorded, visited⟩ : TrieMemoryPartialStorage).recorded_storage a
              = some v from hfind]
      rw [hstate]
      refine ih (setInsert visited a) ?_
      intro h hmem
      rcases mem_setInsert hmem with heq | hold
      · rw [heq, hfind]
        rfl
      · exact hinv h hold

/-- C9: starting from construction (empty visited set), after any sequence of
`retrieve_raw_bytes` calls on the partial (replay) backend the visited set
stays inside the key set of the fixed recorded mapping, and the mapping
itself is never modified. -/
theorem C9_partial_visited_subset (recorded : List (CryptoHash × Bytes))
    (hs : List CryptoHash) :
    (TrieMemoryPartialStorage.runRetrievals ⟨recorded, []⟩ hs).recorded_storage =
      recorded ∧
    ∀ h ∈ (TrieMemoryPartialStorage.runRetrievals ⟨recorded, []⟩ hs).visited_nodes,
      (mapFind recorded h).isSome :=
  runRetrievals_invariant recorded hs [] (by intro h hmem; cases hmem)

/-- The accounting tail changes only the db-read counter (and possibly the
chunk cache): shard cache, mem-read counter and ghost store counter are kept. -/
theorem finishRead_state (s : TrieCachingStorage) (hash : CryptoHash) (val : Bytes) :
    (TrieCachingStorage.finishRead s hash val).1 = RetrieveResult.ok val ∧
    ((TrieCachingStorage.finishRead s hash val).2).shard_cache = s.shard_cache ∧
    ((TrieCachingStorage.finishRead s hash val).2).db_read_nodes = s.db_read_nodes + 1 ∧
    ((TrieCachingStorage.finishRead s hash val).2).mem_read_nodes = s.mem_read_nodes ∧
    ((TrieCachingStorage.finishRead s hash val).2).store_reads = s.store_reads := by
  unfold TrieCachingStorage.finishRead
  rcases hm : s.cache_mode <;> simp [hm]

/-- C1: when a hash misses the unbounded chunk cache but hits the bounded
shard cache, `retrieve_raw_bytes` returns the cached payload, adds exactly
one to the db-read counter, and leaves the mem-read counter unchanged. -/
theorem C1_shard_hit_accounting (s : TrieCachingStorage) (hash : CryptoHash)
    (val : Bytes)
    (hchunk : mapFind s.chunk_cache hash = none)
    (hshard : (s.shard_cache.get hash).1 = some val) :
    (s.retrieve_raw_bytes hash).1 = RetrieveResult.ok val ∧
    (s.retrieve_raw_bytes hash).2.db_read_nodes = s.db_read_nodes + 1 ∧
    (s.retrieve_raw_bytes hash).2.mem_read_nodes = s.mem_read_nodes := by
  unfold TrieCachingStorage.retrieve_raw_bytes
  rw [hchunk, hshard]
  have h := finishRead_state { s with shard_cache := (s.shard_cache.get hash).2 } hash val
  exact ⟨h.1, h.2.2.1, h.2.2.2.1⟩

/-- Concrete caching state for the C1 witness: hash 5 present only in the
shard cache. -/
def c1state : TrieCachingStorage :=
  { store := fun _ => StoreResult.absent
    shard_cache := ⟨10, [(5, [2, 3])]⟩
    chunk_cache := []
    cache_mode := TrieCacheMode.CachingShard
    prefetching := []
    db_read_nodes := 0
    mem_read_nodes := 0
    store_reads := 0 }

/-- C1 witness: the theorem applied at a concrete state whose shard cache
holds hash 5 and whose chunk cache is empty. -/
theorem C1_shard_hit_accounting_witness :
    (c1state.retrieve_raw_bytes 5).1 = RetrieveResult.ok [2, 3] ∧
    (c1state.retrieve_raw_bytes 5).2.db_read_nodes = c1state.db_read_nodes + 1 ∧
    (c1state.retrieve_raw_bytes 5).2.mem_read_nodes = c1state.mem_read_nodes :=
  C1_shard_hit_accounting c1state 5 [2, 3] (by decide) (by decide)

/-- Concrete caching state for the C2 counterexample: hash 0 is cached, but
only in the shard cache, and the db-read counter is 0. -/
def c2state : TrieCachingStorage :=
  { store := fun _ => StoreResult.absent
    shard_cache := ⟨10, [(0, [1])]⟩
    chunk_cache := []
    cache_mode := TrieCacheMode.CachingShard
    prefetching := []
    db_read_nodes := 0
    mem_read_nodes := 0
    store_reads := 0 }

/-- C2 counterexample: hash 0 is already cached in the layered backend
(`c2state`, shard cache) and a repeated retrieve serves it without querying
the persistent store, yet it changes the db-read counter — a read counter
other than the mem-read counter — so the claim as stated fails here. -/
theorem C2_counterexample :
    (c2state.shard_cache.get 0).1 = some [1] ∧
    (c2state.retrieve_raw_bytes 0).1 = RetrieveResult.ok [1] ∧
    (c2state.retrieve_raw_bytes 0).2.store_reads = c2state.store_reads ∧
    (c2state.retrieve_raw_bytes 0).2.db_read_nodes ≠ c2state.db_read_nodes := by
  refine ⟨rfl, rfl, rfl, ?_⟩
  decide

/-- C2 (amended): a retrieve of an already cached hash never queries the
persistent store; a chunk-cache hit changes only the mem-read counter, while
a hash found only in the shard cache leaves the mem-read counter unchanged
and instead increments the db-read counter. -/
theorem C2_cached_no_store (s : TrieCachingStorage) (hash : CryptoHash) (val : Bytes) :
    (mapFind s.chunk_cache hash = some val →
      (s.retrieve_raw_bytes hash).1 = RetrieveResult.ok val ∧
      (s.retrieve_raw_bytes hash).2.store_reads = s.store_reads ∧
      (s.retrieve_raw_bytes hash).2.db_read_nodes = s.db_read_nodes ∧
      (s.retrieve_raw_bytes hash).2.mem_read_nodes = s.mem_read_nodes + 1) ∧
    (mapFind s.chunk_cache hash = none → (s.shard_cache.get hash).1 = some val →
      (s.retrieve_raw_bytes hash).1 = RetrieveResult.ok val ∧
      (s.retrieve_raw_bytes hash).2.store_reads = s.store_reads ∧
      (s.retrieve_raw_bytes hash).2.db_read_nodes = s.db_read_nodes + 1 ∧
      (s.retrieve_raw_bytes hash).2.mem_read_nodes = s.mem_read_nodes) := by
  constructor
  · intro hc
    unfold TrieCachingStorage.retrieve_raw_bytes
    rw [hc]
    exact ⟨rfl, rfl, rfl, rfl⟩
  · intro hc hshard
    unfold TrieCachingStorage.retrieve_raw_bytes
    rw [hc, hshard]
    have h := finishRead_state { s with shard_cache := (s.shard_cache.get hash).2 } hash val
    exact ⟨h.1, h.2.2.2.2, h.2.2.1, h.2.2.2.1⟩

/-- Getting a key right after putting it hits, as long as the capacity is
positive (a zero-capacity cache drops everything). -/
theorem LruCache.get_put_self (c : LruCache) (k : CryptoHash) (v : Bytes)
    (hcap : 0 < c.capacity) : ((c.put k v).get k).1 = some v := by
  unfold LruCache.put LruCache.get
  rcases hc : c.capacity with _ | n
  · omega
  · simp [List.find?]

/-- Getting a key right after popping it misses. -/
theorem LruCache.get_pop_self (c : LruCache) (k : CryptoHash) :
    ((c.pop k).get k).1 = none := by
  unfold LruCache.pop LruCache.get
  simp only [find_filter_ne_eq_none]

/-- Concrete shard cache for the C5 counterexample: hash 7 holds a small
payload. -/
def c5cache : TrieCache := ⟨10, [(7, [1])]⟩

/-- Concrete raw value for the C5 counterexample: its decoded payload has
exactly the threshold size. -/
def c5raw : RawValue :=
  { payload := some (List.replicate TRIE_LIMIT_CACHED_VALUE_SIZE 0), rc := 1 }

/-- C5 counterexample: a batch pair whose raw value is present and whose
decoded payload is at the size threshold does not evict the existing entry
for that hash — the batched update leaves the cache unchanged and a get for
the hash still returns the old payload, contradicting the claimed eviction. -/
theorem C5_counterexample :
    TRIE_LIMIT_CACHED_VALUE_SIZE ≤
      (List.replicate TRIE_LIMIT_CACHED_VALUE_SIZE (0 : Nat)).length ∧
    decode_value_with_rc c5raw =
      (some (List.replicate TRIE_LIMIT_CACHED_VALUE_SIZE 0), 1) ∧
    TrieCache.update_cache c5cache [(7, some c5raw)] = c5cache ∧
    ((TrieCache.update_cache c5cache [(7, some c5raw)]).get 7).1 = some [1] := by
  have hlen : (List.replicate TRIE_LIMIT_CACHED_VALUE_SIZE (0 : Nat)).length =
      TRIE_LIMIT_CACHED_VALUE_SIZE := List.length_replicate _ _
  have hstep : TrieCache.update_cache c5cache [(7, some c5raw)] = c5cache := by
    unfold TrieCache.update_cache TrieCache.update_one
    simp [decode_value_with_rc, c5raw, hlen]
  refine ⟨le_of_eq hlen.symm, rfl, hstep, ?_⟩
  rw [hstep]
  rfl

/-- C5 (amended): the per-pair effect of `TrieCache::update_cache`: a present
raw value whose decoded payload is under the size threshold is inserted under
its hash (and found by a later get, capacity permitting); a present raw value
with an oversized decoded payload leaves the cache unchanged — in particular
an existing entry for that hash is not evicted; a raw value whose decode
yields no payload, and a missing value (deletion), evict the entry; and a
batch is processed as these pairwise steps in order. -/
theorem C5_update_cache_effect (c : TrieCache) (hash : CryptoHash) (rv : RawValue)
    (value : Bytes) (op : CryptoHash × Option RawValue)
    (ops : List (CryptoHash × Option RawValue)) :
    (rv.payload = some value → value.length < TRIE_LIMIT_CACHED_VALUE_SIZE →
      TrieCache.update_cache c [(hash, some rv)] = c.put hash value ∧
      (0 < c.capacity →
        ((TrieCache.update_cache c [(hash, some rv)]).get hash).1 = some value)) ∧
    (rv.payload = some value → TRIE_LIMIT_CACHED_VALUE_SIZE ≤ value.length →
      TrieCache.update_cache c [(hash, some rv)] = c) ∧
    (rv.payload = none →
      TrieCache.update_cache c [(hash, some rv)] = c.pop hash ∧
      ((TrieCache.update_cache c [(hash, some rv)]).get hash).1 = none) ∧
    (TrieCache.update_cache c [(hash, none)] = c.pop hash ∧
      ((TrieCache.update_cache c [(hash, none)]).get hash).1 = none) ∧
    TrieCache.update_cache c (op :: ops) =
      TrieCache.update_cache (TrieCache.update_one c op) ops := by
  refine ⟨?_, ?_, ?_, ⟨rfl, LruCache.get_pop_self c hash⟩, rfl⟩
  · intro hp hlt
    have hstep : TrieCache.update_cache c [(hash, some rv)] = c.put hash value := by
      unfold TrieCache.update_cache TrieCache.update_one
      simp [decode_value_with_rc, hp, hlt]
    exact ⟨hstep, fun hcap => by rw [hstep]; exact LruCache.get_put_self c hash value hcap⟩
  · intro hp hge
    unfold TrieCache.update_cache TrieCache.update_one
    simp [decode_value_with_rc, hp]
    omega
  · intro hp
    have hstep : TrieCache.update_cache c [(hash, some rv)] = c.pop hash := by
      unfold TrieCache.update_cache TrieCache.update_one
      simp [decode_value_with_rc, hp]
    exact ⟨hstep, by rw [hstep]; exact LruCache.get_pop_self c hash⟩

/-- `put` keeps the all-under-threshold invariant when the new value is under
the threshold. -/
theorem allUnder_put {c : LruCache} {k : CryptoHash} {v : Bytes} (hc : c.allUnder)
    (hv : v.length < TRIE_LIMIT_CACHED_VALUE_SIZE) : (c.put k v).allUnder := by
  intro p hp
  have hp1 : p ∈ (k, v) :: c.entries.filter (fun q => q.1 != k) :=
    List.take_subset _ _ hp
  rcases List.mem_cons.mp hp1 with rfl | hp2
  · exact hv
  · exact hc p (List.mem_of_mem_filter hp2)

/-- `pop` keeps the invariant. -/
theorem allUnder_pop {c : LruCache} {k : CryptoHash} (hc : c.allUnder) :
    (c.pop k).allUnder :=
  fun p hp => hc p (List.mem_of_mem_filter hp)

/-- `get` keeps the invariant: a hit only moves an existing entry forward. -/
theorem allUnder_get {c : LruCache} {k : CryptoHash} (hc : c.allUnder) :
    ((c.get k).2).allUnder := by
  unfold LruCache.get
  rcases hf : c.entries.find? (fun p => p.1 == k) with _ | e
  · rw [hf]
    exact hc
  · rw [hf]
    intro p hp
    rcases List.mem_cons.mp hp with rfl | hp2
    · exact hc e (List.mem_of_find?_eq_some hf)
    · exact hc p (List.mem_of_mem_filter hp2)

/-- A cache satisfying the invariant never returns an oversized payload. -/
theorem get_ne_oversized {c : LruCache} {k : CryptoHash} {v : Bytes}
    (hc : c.allUnder) (hv : TRIE_LIMIT_CACHED_VALUE_SIZE ≤ v.length) :
    (c.get k).1 ≠ some v := by
  unfold LruCache.get
  rcases hf : c.entries.find? (fun p => p.1 == k) with _ | e
  · rw [hf]
    simp
  · rw [hf]
    intro hcontra
    have he2 : e.2 = v := by simpa using hcontra
    have := hc e (List.mem_of_find?_eq_some hf)
    rw [he2] at this
    omega

/-- Each step of the batched cache update keeps the invariant. -/
theorem update_one_allUnder {c : TrieCache} (op : CryptoHash × Option RawValue)
    (hc : c.allUnder) : (TrieCache.update_one c op).allUnder := by
  rcases op with ⟨hash, _ | rv⟩
  · exact allUnder_pop hc
  · simp only [TrieCache.update_one, decode_value_with_rc]
    rcases hp : rv.payload with _ | value
    · exact allUnder_pop hc
    · by_cases hlt : value.length < TRIE_LIMIT_CACHED_VALUE_SIZE
      · simpa [hlt] using allUnder_put hc hlt
      · simpa [hlt] using hc

/-- Admission into the shard cache keeps the invariant: oversized values are
not inserted at all. -/
theorem admit_allUnder {s : TrieCachingStorage} {hash : CryptoHash} {val : Bytes}
    (hs : s.shard_cache.allUnder) :
    (s.admitToShardCache hash val).shard_cache.allUnder := by
  unfold TrieCachingStorage.admitToShardCache
  by_cases hlt : val.length < TRIE_LIMIT_CACHED_VALUE_SIZE
  · simpa [hlt] using allUnder_put hs hlt
  · simpa [hlt] using hs

/-- The whole retrieve path keeps the shard-cache invariant. -/
theorem retrieve_keeps_allUnder (s : TrieCachingStorage) (hash : CryptoHash)
    (hs : s.shard_cache.allUnder) :
    ((s.retrieve_raw_bytes hash).2).shard_cache.allUnder := by
  unfold TrieCachingStorage.retrieve_raw_bytes
  split
  · exact hs
  · split
    · rw [(finishRead_state _ hash _).2.1]
      exact allUnder_get hs
    · split
      · exact allUnder_get hs
      · rw [(finishRead_state _ hash _).2.1]
        exact admit_allUnder (allUnder_get hs)
      · split
        · exact allUnder_get hs
        · exact allUnder_get hs
        · rw [(finishRead_state _ hash _).2.1]
          exact admit_allUnder (allUnder_get hs)

/-- C6: payloads at or above the admission threshold never enter the bounded
shard cache: the all-under-threshold invariant is preserved by the batched
update and by the whole retrieve path of the caching backend, and a cache
satisfying it never returns an oversized payload on `get`. -/
theorem C6_oversized_never_cached (v : Bytes) (c : TrieCache)
    (ops : List (CryptoHash × Option RawValue)) (s : TrieCachingStorage)
    (hash : CryptoHash) :
    (c.allUnder → (TrieCache.update_cache c ops).allUnder) ∧
    (s.shard_cache.allUnder → ((s.retrieve_raw_bytes hash).2).shard_cache.allUnder) ∧
    (TRIE_LIMIT_CACHED_VALUE_SIZE ≤ v.length → c.allUnder →
      (c.get hash).1 ≠ some v) := by
  refine ⟨?_, fun hs => retrieve_keeps_allUnder s hash hs,
    fun hv hc => get_ne_oversized hc hv⟩
  induction ops generalizing c with
  | nil => exact fun hc => hc
  | cons a t ih => exact fun hc => ih _ (update_one_allUnder a hc)
